import Mathlib

/-!
Shallow embedding of the chunked world streaming system of tlxdev/dreamgame
(src/shared/world_generation.rs, src/client/plugins/client_world.rs,
src/server/plugins/server_world.rs), together with proofs about the
claims of the specification.

Modelling conventions:
* Rust `i32` / `f32` / `f64` scalars are embedded as `ℤ` / `ℚ` / `ℚ`;
  `u32` counters are embedded as `ℕ` with arithmetic reduced mod `2 ^ 32`
  exactly where the Rust code wraps.
* `HashSet` is embedded as `Finset` (client sets) or as a `Nodup` list
  (server active set, whose iteration order feeds a stable sort).
* `HashMap` is embedded as an association list with overwrite-on-insert.
* The Perlin noise functions of the external `noise` crate are pure
  functions of their seed; they are embedded as an explicit parameter
  `noise : ℕ → ℚ → ℚ → ℚ` (seed, x, y ↦ sample).
-/

namespace DreamGame

/-- ChunkCoord (world_generation.rs): signed chunk grid coordinate. -/
structure ChunkCoord where
  x : ℤ
  y : ℤ
deriving DecidableEq

/-- TileType (world_generation.rs): the seven tile kinds. -/
inductive TileType where
  | Grass | Water | Sand | Stone | Forest | Mountain | Snow
deriving DecidableEq

/-- ResourceType (world_generation.rs): the seven resource kinds. -/
inductive ResourceType where
  | None | Iron | Copper | Coal | Gold | Tree | Stone
deriving DecidableEq

/-- BiomeType (world_generation.rs): the six biomes. -/
inductive BiomeType where
  | Plains | Ocean | Desert | Forest | Mountain | Tundra
deriving DecidableEq

/-- Tile (world_generation.rs). `height` is the sampled noise value
(`f32` embedded as `ℚ`), `position` the world coordinate. -/
structure Tile where
  tile_type : TileType
  resource : ResourceType
  height : ℚ
  position : ℤ × ℤ
  traversable : Bool
deriving DecidableEq

/-- Chunk (world_generation.rs): coordinate, chunk_size × chunk_size tile
grid (outer list indexed by local y, inner by local x), biome tag and the
`last_accessed` stamp (`f64` embedded as `ℚ`). -/
structure Chunk where
  coord : ChunkCoord
  tiles : List (List Tile)
  biome_type : BiomeType
  last_accessed : ℚ
deriving DecidableEq

/-- WorldConfig (world_generation.rs): immutable generation parameters. -/
structure WorldConfig where
  seed : ℕ
  chunk_size : ℕ
  max_active_chunks : ℕ
  biome_scale : ℚ
  height_scale : ℚ
  resource_density : ℚ
deriving DecidableEq

/-- The modulus of the Rust `u32` type. -/
def u32Size : ℕ := 4294967296

/-- Wrapping `u32` subtraction `a - b` (both arguments below `u32Size`),
as performed by `current_frame - frame` in `request_visible_chunks`. -/
def u32Sub (a b : ℕ) : ℕ := (a + u32Size - b) % u32Size

/-! ### Association lists: the embedding of `HashMap` keyed by `ChunkCoord` -/

/-- Lookup in a `HashMap` embedded as an association list. -/
def lookupA {α : Type} (l : List (ChunkCoord × α)) (c : ChunkCoord) : Option α :=
  (l.find? (fun p => p.1 == c)).map Prod.snd

/-- `HashMap::remove`: drop the entry for key `c`. -/
def eraseA {α : Type} (l : List (ChunkCoord × α)) (c : ChunkCoord) : List (ChunkCoord × α) :=
  l.filter (fun p => !(p.1 == c))

/-- `HashMap::insert`: overwrite the entry for key `c`. -/
def insertA {α : Type} (l : List (ChunkCoord × α)) (c : ChunkCoord) (v : α) :
    List (ChunkCoord × α) :=
  (c, v) :: eraseA l c

/-- The key set of an embedded `HashMap`. -/
def keysA {α : Type} (l : List (ChunkCoord × α)) : List ChunkCoord :=
  l.map Prod.fst

/-- A deterministic iteration order for embedded `HashSet ChunkCoord`
values (the Rust iteration order is unspecified; claims never depend on
it, but executable folds need a concrete deterministic order). -/
instance : LinearOrder ChunkCoord :=
  LinearOrder.lift' (fun c => toLex (c.x, c.y)) (by
    intro a b hab
    cases a; cases b
    simpa [Prod.ext_iff] using hab)

/-- Iterate an embedded `HashSet` in the deterministic order above. -/
def setToList (s : Finset ChunkCoord) : List ChunkCoord :=
  s.sort (fun a b => a ≤ b)

/-! ### Client visibility and request tracking (client_world.rs) -/

/-- ClientWorldState (client_world.rs): visible/loaded sets, requested
map (coordinate → frame of request), last player chunk, view distance
and the `u32` frame counter. -/
structure ClientWorldState where
  visible_chunks : Finset ChunkCoord
  loaded_chunks : Finset ChunkCoord
  requested_chunks : List (ChunkCoord × ℕ)
  player_chunk : Option ChunkCoord
  view_distance : ℤ
  frame_counter : ℕ
deriving DecidableEq

/-- The square window of chunk coordinates within Chebyshev distance
`view_dist` of `center`, as built by the nested loops
`for y in -view_dist..=view_dist { for x in -view_dist..=view_dist }`
of `update_visible_chunks`. -/
def chebyshevWindow (center : ChunkCoord) (view_dist : ℤ) : Finset ChunkCoord :=
  (Finset.Icc (-view_dist) view_dist ×ˢ Finset.Icc (-view_dist) view_dist).image
    (fun d => ChunkCoord.mk (center.x + d.1) (center.y + d.2))

/-- update_visible_chunks (client_world.rs:56): increment the frame
counter (`u32`, wrapping); when a player position is available, derive
its chunk via euclidean division and, if the player chunk is unset or
changed, recompute the visible window. -/
def update_visible_chunks (pos : Option (ℤ × ℤ)) (cfg : WorldConfig)
    (s : ClientWorldState) : ClientWorldState :=
  let s1 := { s with frame_counter := (s.frame_counter + 1) % u32Size }
  match pos with
  | none => s1
  | some p =>
    let cs : ℤ := (cfg.chunk_size : ℤ)
    let current : ChunkCoord := ⟨Int.ediv p.1 cs, Int.ediv p.2 cs⟩
    if s1.player_chunk ≠ some current then
      { s1 with player_chunk := some current,
                visible_chunks := chebyshevWindow current s1.view_distance }
    else s1

/-- cleanup_invisible_chunks (client_world.rs:126): drop loaded chunks
that left the visible window (the second component is the set of
despawned, i.e. released, coordinates) and drop requested entries whose
coordinate left the visible window. -/
def cleanup_invisible_chunks (s : ClientWorldState) :
    ClientWorldState × Finset ChunkCoord :=
  let chunks_to_remove := s.loaded_chunks.filter (fun c => c ∉ s.visible_chunks)
  ({ s with
      loaded_chunks := s.loaded_chunks.filter (fun c => c ∈ s.visible_chunks),
      requested_chunks :=
        s.requested_chunks.filter (fun p => decide (p.1 ∈ s.visible_chunks)) },
    chunks_to_remove)

/-- The body of the event loop of handle_chunk_data (client_world.rs:237)
for a single ChunkData message: discard when the coordinate is not
visible or already loaded, otherwise spawn the chunk locally (the `Bool`
result records whether a local representation was materialized), mark it
loaded and clear its requested entry. -/
def on_receive (s : ClientWorldState) (ch : Chunk) : ClientWorldState × Bool :=
  let coord := ch.coord
  if coord ∉ s.visible_chunks then (s, false)
  else if coord ∈ s.loaded_chunks then (s, false)
  else ({ s with
            loaded_chunks := insert coord s.loaded_chunks,
            requested_chunks := eraseA s.requested_chunks coord }, true)

/-- handle_chunk_data (client_world.rs:237): process the inbound
ChunkData messages of this tick in order. -/
def handle_chunk_data (msgs : List Chunk) (s : ClientWorldState) : ClientWorldState :=
  msgs.foldl (fun st m => (on_receive st m).1) s

/-- REQUEST_TIMEOUT (client_world.rs:184): re-request only after 120 frames. -/
def REQUEST_TIMEOUT : ℕ := 120

/-- The per-coordinate condition of the collection loop of
request_visible_chunks: visible coordinates are skipped when loaded;
otherwise they are due when unrequested, or when the wrapping `u32`
difference to the recorded frame exceeds the timeout. -/
def wantsRequest (s : ClientWorldState) (current_frame : ℕ) (c : ChunkCoord) : Bool :=
  if c ∈ s.loaded_chunks then false
  else
    match lookupA s.requested_chunks c with
    | none => true
    | some f => decide (u32Sub current_frame f > REQUEST_TIMEOUT)

/-- request_visible_chunks (client_world.rs:174): no-op without a known
player chunk; otherwise collect the due coordinates among the visible
ones (reading the pre-pass state), emit a ChunkRequest for each (the
second component) and stamp each with the current frame. -/
def request_visible_chunks (s : ClientWorldState) :
    ClientWorldState × Finset ChunkCoord :=
  match s.player_chunk with
  | none => (s, ∅)
  | some _ =>
    let current_frame := s.frame_counter
    let chunks_to_request :=
      s.visible_chunks.filter (fun c => wantsRequest s current_frame c = true)
    let req :=
      (setToList chunks_to_request).foldl (fun m c => insertA m c current_frame)
        s.requested_chunks
    ({ s with requested_chunks := req }, chunks_to_request)

/-! ### Terrain generation (world_generation.rs) -/

/-- A family of coherent-noise samplers, one per seed: the embedding of
`Perlin::new(seed)` of the external noise crate, which is a pure
function of its seed and sample point. -/
def NoiseFamily : Type := ℕ → ℚ → ℚ → ℚ

/-- determine_biome (world_generation.rs:336): fixed thresholds on the
biome-noise sample. -/
def determine_biome (value : ℚ) : BiomeType :=
  if value < -0.6 then BiomeType.Ocean
  else if value < -0.3 then BiomeType.Desert
  else if value < 0.1 then BiomeType.Plains
  else if value < 0.4 then BiomeType.Forest
  else if value < 0.7 then BiomeType.Mountain
  else BiomeType.Tundra

/-- determine_tile_type (world_generation.rs:347): per-biome height
threshold bands. -/
def determine_tile_type (biome : BiomeType) (height : ℚ) : TileType :=
  match biome with
  | BiomeType.Ocean => if height > 0.2 then TileType.Sand else TileType.Water
  | BiomeType.Desert => if height > 0.6 then TileType.Stone else TileType.Sand
  | BiomeType.Plains => if height > 0.7 then TileType.Stone else TileType.Grass
  | BiomeType.Forest => if height > 0.8 then TileType.Mountain else TileType.Forest
  | BiomeType.Mountain =>
      if height > 0.6 then TileType.Mountain
      else if height > 0.3 then TileType.Stone
      else TileType.Grass
  | BiomeType.Tundra =>
      if height > 0.7 then TileType.Snow
      else if height > 0.4 then TileType.Stone
      else TileType.Grass

/-- determine_resource (world_generation.rs:398): density gate on the
absolute resource-noise sample, then per-tile-type resource bands. -/
def determine_resource (tile_type : TileType) (resource_value density : ℚ) :
    ResourceType :=
  if |resource_value| < 1 - density then ResourceType.None
  else
    match tile_type with
    | TileType.Grass =>
        if resource_value > 0.8 then ResourceType.Tree else ResourceType.None
    | TileType.Forest => ResourceType.Tree
    | TileType.Stone =>
        if |resource_value| > 0.9 then ResourceType.Gold
        else if |resource_value| > 0.7 then ResourceType.Iron
        else if |resource_value| > 0.5 then ResourceType.Copper
        else if |resource_value| > 0.3 then ResourceType.Coal
        else ResourceType.Stone
    | TileType.Mountain =>
        if |resource_value| > 0.9 then ResourceType.Gold
        else if |resource_value| > 0.7 then ResourceType.Iron
        else if |resource_value| > 0.5 then ResourceType.Copper
        else if |resource_value| > 0.3 then ResourceType.Coal
        else ResourceType.Stone
    | _ => ResourceType.None

/-- is_traversable (world_generation.rs:432). -/
def is_traversable (tile_type : TileType) (resource : ResourceType) : Bool :=
  match tile_type, resource with
  | TileType.Water, _ => false
  | TileType.Mountain, _ => false
  | _, ResourceType.Tree => false
  | _, _ => true

/-- The biome-noise sample of a chunk (world_generation.rs:258): the
chunk coordinate scaled by `biome_scale`, sampled with seed `seed + 1`. -/
def chunkBiomeValue (noise : NoiseFamily) (cfg : WorldConfig) (coord : ChunkCoord) : ℚ :=
  noise (cfg.seed + 1) ((coord.x : ℚ) * cfg.biome_scale) ((coord.y : ℚ) * cfg.biome_scale)

/-- One tile of the generation loop body of generate_chunk
(world_generation.rs:268-299): world coordinate, height sample (seed
`seed`), tile type from the chunk biome, resource sample (seed
`seed + 2`, double scale) and the traversability flag. -/
def generateTile (noise : NoiseFamily) (cfg : WorldConfig) (coord : ChunkCoord)
    (local_x local_y : ℕ) : Tile :=
  let world_x : ℤ := coord.x * (cfg.chunk_size : ℤ) + (local_x : ℤ)
  let world_y : ℤ := coord.y * (cfg.chunk_size : ℤ) + (local_y : ℤ)
  let height_value :=
    noise cfg.seed ((world_x : ℚ) * cfg.height_scale) ((world_y : ℚ) * cfg.height_scale)
  let tile_type :=
    determine_tile_type (determine_biome (chunkBiomeValue noise cfg coord)) height_value
  let resource_value :=
    noise (cfg.seed + 2) ((world_x : ℚ) * cfg.height_scale * 2)
      ((world_y : ℚ) * cfg.height_scale * 2)
  let resource := determine_resource tile_type resource_value cfg.resource_density
  { tile_type := tile_type
    resource := resource
    height := height_value
    position := (world_x, world_y)
    traversable := is_traversable tile_type resource }

/-- generate_chunk (world_generation.rs:244): a pure function of the
noise family, config, coordinate, and the world time at the moment of
generation (which stamps `last_accessed`). -/
def generate_chunk (noise : NoiseFamily) (cfg : WorldConfig) (coord : ChunkCoord)
    (world_time : ℚ) : Chunk :=
  { coord := coord
    tiles :=
      (List.range cfg.chunk_size).map (fun local_y =>
        (List.range cfg.chunk_size).map (fun local_x =>
          generateTile noise cfg coord local_x local_y))
    biome_type := determine_biome (chunkBiomeValue noise cfg coord)
    last_accessed := world_time }

/-! ### Server chunk store (world_generation.rs) -/

/-- WorldState (world_generation.rs:95): the chunk map is embedded by
its key set (the mapped entity ids are opaque), the active `HashSet` as
a list carrying the iteration order fed to the stable sort of the
eviction pass, the generation-time map as an association list. -/
structure WorldState where
  chunks : Finset ChunkCoord
  active_chunks : List ChunkCoord
  generation_time : List (ChunkCoord × ℚ)
  world_time : ℚ

/-- The body of the unload loop of manage_active_chunks
(world_generation.rs:221-232): a chunk is removed from the map, the
active set and the generation-time map only when its coordinate is
still a key of the chunk map. -/
def evictOne (st : WorldState) (p : ChunkCoord × ℚ) : WorldState :=
  if p.1 ∈ st.chunks then
    { st with
        chunks := st.chunks.erase p.1,
        active_chunks := st.active_chunks.filter (fun c => decide (c ≠ p.1)),
        generation_time := eraseA st.generation_time p.1 }
  else st

/-- manage_active_chunks (world_generation.rs:192): advance world time,
and when the active set exceeds capacity, pair the active coordinates
with their generation times, stably sort by time (oldest first) and
unload the first `len - max_active_chunks` of them. -/
def manage_active_chunks (dt : ℚ) (cfg : WorldConfig) (s : WorldState) : WorldState :=
  let s1 := { s with world_time := s.world_time + dt }
  if s1.active_chunks.length > cfg.max_active_chunks then
    let chunks_with_time := s1.active_chunks.filterMap
      (fun c => (lookupA s1.generation_time c).map (fun t => (c, t)))
    let sorted := chunks_with_time.mergeSort (fun a b => decide (a.2 ≤ b.2))
    let to_unload := s1.active_chunks.length - cfg.max_active_chunks
    (sorted.take to_unload).foldl evictOne s1
  else s1

/-! ### Server-side chunk push (server_world.rs) -/

/-- A tracked player on the server: an opaque client id (PlayerId of the
protocol module) and the chunk-grid projection of its Transform. -/
structure ServerPlayer where
  pid : ℕ
  position : ℤ × ℤ

/-- send_new_chunks (server_world.rs:58): for each newly generated
chunk, a ChunkData message is sent to every tracked player — the loop
body uses only `player_id`, never the player's transform or any
visibility information. The result is the list of (client id, chunk)
messages sent. -/
def send_new_chunks (new_chunks : List Chunk) (players : List ServerPlayer) :
    List (ℕ × Chunk) :=
  (new_chunks.map (fun ch => players.map (fun p => (p.pid, ch)))).flatten

/-- The visible set of a tracked player as the client would compute it:
the Chebyshev window of radius `view_dist` around the player's chunk
(floor division of the position by the chunk size). -/
def playerVisibleSet (cfg : WorldConfig) (view_dist : ℤ) (p : ServerPlayer) :
    Finset ChunkCoord :=
  chebyshevWindow
    ⟨Int.ediv p.position.1 (cfg.chunk_size : ℤ), Int.ediv p.position.2 (cfg.chunk_size : ℤ)⟩
    view_dist

/-! ### The client per-tick pipeline (client_world.rs:25-40) -/

/-- One client tick: the chained system order of ClientWorldPlugin —
update_visible_chunks, cleanup_invisible_chunks, handle_chunk_data,
request_visible_chunks. The input is the player position reported this
tick (if any) and the inbound ChunkData messages. -/
def clientTick (cfg : WorldConfig) (inp : Option (ℤ × ℤ) × List Chunk)
    (s : ClientWorldState) : ClientWorldState :=
  (request_visible_chunks
    (handle_chunk_data inp.2
      (cleanup_invisible_chunks (update_visible_chunks inp.1 cfg s)).1)).1

/-- The initial client state installed by ClientWorldPlugin::build
(client_world.rs:17-24). -/
def initClientState : ClientWorldState :=
  { visible_chunks := ∅
    loaded_chunks := ∅
    requested_chunks := []
    player_chunk := none
    view_distance := 2
    frame_counter := 0 }

/-- The client state reached from the initial state by a sequence of
ticks with the given inputs. -/
def runClient (cfg : WorldConfig) (inputs : List (Option (ℤ × ℤ) × List Chunk)) :
    ClientWorldState :=
  inputs.foldl (fun s i => clientTick cfg i s) initClientState

/-! ### Chunk serialization (world_generation.rs:442-452)

Modelled from the spec: `serialize_chunk` / `deserialize_chunk` delegate
to the external bincode crate, whose byte-level encoding is not part of
this repository. Following §6 of the spec (field order: coordinate, 2D
tile grid — each tile: type tag, resource tag, height, world position,
traversable flag — biome tag, last-accessed), the byte stream is
embedded as a token stream with one token per encoded scalar. -/

/-- Tag of a TileType (bincode enum tags follow declaration order). -/
def tileTypeTag : TileType → ℕ
  | TileType.Grass => 0
  | TileType.Water => 1
  | TileType.Sand => 2
  | TileType.Stone => 3
  | TileType.Forest => 4
  | TileType.Mountain => 5
  | TileType.Snow => 6

/-- Decode a TileType tag. -/
def tileTypeOfTag : ℕ → Option TileType
  | 0 => some TileType.Grass
  | 1 => some TileType.Water
  | 2 => some TileType.Sand
  | 3 => some TileType.Stone
  | 4 => some TileType.Forest
  | 5 => some TileType.Mountain
  | 6 => some TileType.Snow
  | _ => none

/-- Tag of a ResourceType. -/
def resourceTypeTag : ResourceType → ℕ
  | ResourceType.None => 0
  | ResourceType.Iron => 1
  | ResourceType.Copper => 2
  | ResourceType.Coal => 3
  | ResourceType.Gold => 4
  | ResourceType.Tree => 5
  | ResourceType.Stone => 6

/-- Decode a ResourceType tag. -/
def resourceTypeOfTag : ℕ → Option ResourceType
  | 0 => some ResourceType.None
  | 1 => some ResourceType.Iron
  | 2 => some ResourceType.Copper
  | 3 => some ResourceType.Coal
  | 4 => some ResourceType.Gold
  | 5 => some ResourceType.Tree
  | 6 => some ResourceType.Stone
  | _ => none

/-- Tag of a BiomeType. -/
def biomeTypeTag : BiomeType → ℕ
  | BiomeType.Plains => 0
  | BiomeType.Ocean => 1
  | BiomeType.Desert => 2
  | BiomeType.Forest => 3
  | BiomeType.Mountain => 4
  | BiomeType.Tundra => 5

/-- Decode a BiomeType tag. -/
def biomeTypeOfTag : ℕ → Option BiomeType
  | 0 => some BiomeType.Plains
  | 1 => some BiomeType.Ocean
  | 2 => some BiomeType.Desert
  | 3 => some BiomeType.Forest
  | 4 => some BiomeType.Mountain
  | 5 => some BiomeType.Tundra
  | _ => none

/-- Encode a signed integer as a token (zigzag, so that decoding is
exact). -/
def encInt (i : ℤ) : ℕ := if 0 ≤ i then 2 * i.toNat else 2 * (-i).toNat - 1

/-- Decode a signed integer token. -/
def decInt (n : ℕ) : ℤ :=
  if n % 2 = 0 then ((n / 2 : ℕ) : ℤ) else -(((n + 1) / 2 : ℕ) : ℤ)

/-- Encode a boolean as a token. -/
def encBool (b : Bool) : ℕ := if b then 1 else 0

/-- Decode a boolean token. -/
def decBool : ℕ → Option Bool
  | 0 => some false
  | 1 => some true
  | _ => none

/-- Encode one tile: type tag, resource tag, height (numerator and
denominator tokens), world position, traversable flag. -/
def encTile (t : Tile) : List ℕ :=
  [tileTypeTag t.tile_type, resourceTypeTag t.resource,
   encInt t.height.num, t.height.den,
   encInt t.position.1, encInt t.position.2, encBool t.traversable]

/-- Decode one tile (seven tokens). -/
def decTile : List ℕ → Option (Tile × List ℕ)
  | tt :: rt :: hn :: hd :: px :: py :: tv :: rest =>
    match tileTypeOfTag tt, resourceTypeOfTag rt, decBool tv with
    | some a, some b, some v =>
        some ({ tile_type := a, resource := b, height := mkRat (decInt hn) hd,
                position := (decInt px, decInt py), traversable := v }, rest)
    | _, _, _ => none
  | _ => none

/-- Encode the tiles of one row, in order. -/
def encTileSeq : List Tile → List ℕ
  | [] => []
  | t :: ts => encTile t ++ encTileSeq ts

/-- Encode one row: length token, then the tiles. -/
def encRow (row : List Tile) : List ℕ := row.length :: encTileSeq row

/-- Decode `n` consecutive tiles. -/
def decTileSeq : ℕ → List ℕ → Option (List Tile × List ℕ)
  | 0, rest => some ([], rest)
  | n + 1, rest =>
    match decTile rest with
    | some (t, rest1) =>
      match decTileSeq n rest1 with
      | some (ts, rest2) => some (t :: ts, rest2)
      | none => none
    | none => none

/-- Encode the rows of the tile grid, in order. -/
def encRowSeq : List (List Tile) → List ℕ
  | [] => []
  | r :: rs => encRow r ++ encRowSeq rs

/-- Decode `n` consecutive rows (each a length token and its tiles). -/
def decRowSeq : ℕ → List ℕ → Option (List (List Tile) × List ℕ)
  | 0, rest => some ([], rest)
  | n + 1, m :: rest =>
    match decTileSeq m rest with
    | some (row, rest1) =>
      match decRowSeq n rest1 with
      | some (rows, rest2) => some (row :: rows, rest2)
      | none => none
    | none => none
  | _ + 1, [] => none

/-- Modelled from the spec: serialize_chunk (world_generation.rs:442),
with bincode's byte stream embedded as a token stream — coordinate, tile
grid (outer length, then per row its length and tiles), biome tag,
last-accessed. -/
def serialize_chunk (c : Chunk) : List ℕ :=
  [encInt c.coord.x, encInt c.coord.y, c.tiles.length] ++ encRowSeq c.tiles ++
    [biomeTypeTag c.biome_type, encInt c.last_accessed.num, c.last_accessed.den]

/-- Modelled from the spec: deserialize_chunk (world_generation.rs:450)
— parse the fields in order, `none` on any malformed payload. -/
def deserialize_chunk (data : List ℕ) : Option Chunk :=
  match data with
  | cx :: cy :: nrows :: rest =>
    match decRowSeq nrows rest with
    | some (rows, bt :: ln :: ld :: _) =>
      match biomeTypeOfTag bt with
      | some b =>
          some { coord := ⟨decInt cx, decInt cy⟩, tiles := rows, biome_type := b,
                 last_accessed := mkRat (decInt ln) ld }
      | none => none
    | _ => none
  | _ => none

/-! ### Concrete sample data used to evaluate the definitions -/

/-- A constant noise family (a legitimate instance of the pure
`Perlin::new` samplers), used to evaluate generation concretely. -/
def constNoise : NoiseFamily := fun _ _ _ => 0

/-- A small configuration (1×1 chunks) for concrete evaluation. -/
def tinyConfig : WorldConfig :=
  { seed := 0, chunk_size := 1, max_active_chunks := 4,
    biome_scale := 1, height_scale := 1, resource_density := 0 }

/-- The Default impl of WorldConfig (world_generation.rs:20-31). -/
def defaultConfig : WorldConfig :=
  { seed := 12345, chunk_size := 32, max_active_chunks := 64,
    biome_scale := 0.03, height_scale := 0.05, resource_density := 0.02 }

/-- A tileless chunk far from the origin, for concrete evaluation. -/
def farChunk : Chunk :=
  { coord := ⟨100, 100⟩, tiles := [], biome_type := BiomeType.Plains,
    last_accessed := 0 }

/-- A chunk at the origin with no tiles, for concrete evaluation. -/
def originChunk : Chunk :=
  { coord := ⟨0, 0⟩, tiles := [], biome_type := BiomeType.Plains,
    last_accessed := 0 }

/-- A tracked player at the world origin with client id 1. -/
def originPlayer : ServerPlayer := { pid := 1, position := (0, 0) }

/-- A client state in which a coordinate is visible, loaded and
requested at once. -/
def bothState : ClientWorldState :=
  { visible_chunks := {⟨0, 0⟩}, loaded_chunks := {⟨0, 0⟩},
    requested_chunks := [(⟨0, 0⟩, 0)], player_chunk := none,
    view_distance := 2, frame_counter := 0 }

/-- A client state with one visible coordinate whose request is older
than the timeout. -/
def staleState : ClientWorldState :=
  { visible_chunks := {⟨0, 0⟩}, loaded_chunks := ∅,
    requested_chunks := [(⟨0, 0⟩, 0)], player_chunk := some ⟨0, 0⟩,
    view_distance := 2, frame_counter := 200 }

/-- A capacity-1 configuration for concrete evaluation of eviction. -/
def evictConfig : WorldConfig :=
  { seed := 0, chunk_size := 1, max_active_chunks := 1,
    biome_scale := 1, height_scale := 1, resource_density := 0 }

/-- A server store holding two active chunks with distinct generation
times, one over the capacity of `evictConfig`. -/
def evictStore : WorldState :=
  { chunks := {⟨0, 0⟩, ⟨1, 0⟩}
    active_chunks := [⟨0, 0⟩, ⟨1, 0⟩]
    generation_time := [(⟨0, 0⟩, 0), (⟨1, 0⟩, 1)]
    world_time := 0 }

/-- An over-capacity store (capacity of `evictConfig` is 1) whose two
active chunks share one generation time — a tie, as produced by
same-tick batch generation (e.g. setup_world stamps five chunks with
world time 0.0). -/
def tieStore1 : WorldState :=
  { chunks := {⟨0, 0⟩, ⟨1, 0⟩}
    active_chunks := [⟨0, 0⟩, ⟨1, 0⟩]
    generation_time := [(⟨0, 0⟩, 0), (⟨1, 0⟩, 0)]
    world_time := 0 }

/-- The same abstract store as `tieStore1` (same chunk-map keys, same
active membership, same generation-time lookups, same world time), with
the opposite `HashSet` iteration order. -/
def tieStore2 : WorldState :=
  { chunks := {⟨0, 0⟩, ⟨1, 0⟩}
    active_chunks := [⟨1, 0⟩, ⟨0, 0⟩]
    generation_time := [(⟨1, 0⟩, 0), (⟨0, 0⟩, 0)]
    world_time := 0 }

/-- A tick input with no player position and no inbound messages. -/
def idleTick : Option (ℤ × ℤ) × List Chunk := (none, [])

/-- A tick input with the player at the world origin and no messages. -/
def originTick : Option (ℤ × ℤ) × List Chunk := (some (0, 0), [])

/-- An input trace that runs the frame counter to its wrap-around: idle
ticks up to frame `2^32 - 2`, then two ticks with the player at the
origin (the first requests the visible chunks at frame `2^32 - 1`, the
second wraps the counter to 0). -/
def wrapInputs : List (Option (ℤ × ℤ) × List Chunk) :=
  List.replicate (u32Size - 2) idleTick ++ [originTick, originTick]

/-- The client state with empty sets, no player and frame counter `k`. -/
def emptyAt (k : ℕ) : ClientWorldState :=
  { visible_chunks := ∅
    loaded_chunks := ∅
    requested_chunks := []
    player_chunk := none
    view_distance := 2
    frame_counter := k }

/-! ### Helper lemmas about the embedded containers -/

theorem eraseA_cons_self {α : Type} {p : ChunkCoord × α} (t : List (ChunkCoord × α))
    {c : ChunkCoord} (hp : p.1 = c) : eraseA (p :: t) c = eraseA t c := by
  simp [eraseA, List.filter_cons, hp]

theorem eraseA_cons_ne {α : Type} {p : ChunkCoord × α} (t : List (ChunkCoord × α))
    {c : ChunkCoord} (hp : p.1 ≠ c) : eraseA (p :: t) c = p :: eraseA t c := by
  simp [eraseA, List.filter_cons, hp]

theorem lookupA_cons_self {α : Type} {p : ChunkCoord × α} (t : List (ChunkCoord × α))
    {c : ChunkCoord} (hp : p.1 = c) : lookupA (p :: t) c = some p.2 := by
  simp [lookupA, List.find?_cons, hp]

theorem lookupA_cons_ne {α : Type} {p : ChunkCoord × α} (t : List (ChunkCoord × α))
    {c : ChunkCoord} (hp : p.1 ≠ c) : lookupA (p :: t) c = lookupA t c := by
  simp [lookupA, List.find?_cons, hp]

theorem lookupA_eraseA_self {α : Type} (l : List (ChunkCoord × α)) (c : ChunkCoord) :
    lookupA (eraseA l c) c = none := by
  induction l with
  | nil => rfl
  | cons p t ih =>
      by_cases hp : p.1 = c
      · rw [eraseA_cons_self t hp]; exact ih
      · rw [eraseA_cons_ne t hp, lookupA_cons_ne _ hp]; exact ih

theorem lookupA_eraseA_ne {α : Type} (l : List (ChunkCoord × α)) (c c' : ChunkCoord)
    (h : c' ≠ c) : lookupA (eraseA l c) c' = lookupA l c' := by
  induction l with
  | nil => rfl
  | cons p t ih =>
      by_cases hp : p.1 = c
      · have hp' : p.1 ≠ c' := by rw [hp]; exact fun hcc => h hcc.symm
        rw [eraseA_cons_self t hp, lookupA_cons_ne t hp']; exact ih
      · by_cases hp' : p.1 = c'
        · rw [eraseA_cons_ne t hp, lookupA_cons_self _ hp', lookupA_cons_self t hp']
        · rw [eraseA_cons_ne t hp, lookupA_cons_ne _ hp', lookupA_cons_ne t hp']; exact ih

theorem lookupA_insertA_self {α : Type} (l : List (ChunkCoord × α)) (c : ChunkCoord) (v : α) :
    lookupA (insertA l c v) c = some v := by
  simp [insertA, lookupA, List.find?_cons]

theorem lookupA_insertA_ne {α : Type} (l : List (ChunkCoord × α)) (c c' : ChunkCoord) (v : α)
    (h : c' ≠ c) : lookupA (insertA l c v) c' = lookupA l c' := by
  have hne : ((c, v).1 : ChunkCoord) ≠ c' := fun hcc => h hcc.symm
  rw [insertA, lookupA_cons_ne _ hne]
  exact lookupA_eraseA_ne l c c' h

theorem mem_eraseA {α : Type} {l : List (ChunkCoord × α)} {c : ChunkCoord} {p : ChunkCoord × α}
    (h : p ∈ eraseA l c) : p ∈ l := by
  exact List.mem_of_mem_filter h

theorem mem_insertA {α : Type} {l : List (ChunkCoord × α)} {c : ChunkCoord} {v : α}
    {p : ChunkCoord × α} (h : p ∈ insertA l c v) : p = (c, v) ∨ p ∈ l := by
  rw [insertA] at h
  rcases List.mem_cons.mp h with h1 | h1
  · exact Or.inl h1
  · exact Or.inr (mem_eraseA h1)

theorem mem_setToList {s : Finset ChunkCoord} {c : ChunkCoord} :
    c ∈ setToList s ↔ c ∈ s := Finset.mem_sort _

theorem nodup_setToList (s : Finset ChunkCoord) : (setToList s).Nodup :=
  Finset.sort_nodup _ s

/-! ### C8: traversability -/

/-- C8: for every tile produced by chunk generation, the traversable
flag is false iff the tile type is Water or Mountain or the resource is
Tree, and true otherwise; every generated tile's flag is exactly
`is_traversable` of its type and resource. -/
theorem traversability_spec :
    (∀ (t : TileType) (r : ResourceType),
      is_traversable t r = false ↔
        (t = TileType.Water ∨ t = TileType.Mountain ∨ r = ResourceType.Tree)) ∧
    (∀ (noise : NoiseFamily) (cfg : WorldConfig) (coord : ChunkCoord) (wt : ℚ),
      ∀ row ∈ (generate_chunk noise cfg coord wt).tiles, ∀ tile ∈ row,
        tile.traversable = is_traversable tile.tile_type tile.resource) := by
  constructor
  · intro t r
    cases t <;> cases r <;> simp [is_traversable]
  · intro noise cfg coord wt row hrow tile htile
    simp only [generate_chunk, List.mem_map] at hrow
    obtain ⟨ly, _, rfl⟩ := hrow
    simp only [List.mem_map] at htile
    obtain ⟨lx, _, rfl⟩ := htile
    rfl

/-- Witness for C8 at a concrete tile type and resource. -/
theorem traversability_spec_witness :
    is_traversable TileType.Water ResourceType.None = false :=
  (traversability_spec.1 TileType.Water ResourceType.None).mpr (Or.inl rfl)

/-! ### C1: determinism of chunk generation -/

/-- C1 (amended): chunk generation is a pure function of the noise
family (determined by the seed), the config and the coordinate — the
coordinate, tile grid and biome tag of two invocations agree regardless
of the world time at which each runs; the `last_accessed` field alone
carries the generation-time world time. -/
theorem generate_chunk_deterministic (noise : NoiseFamily) (cfg : WorldConfig)
    (coord : ChunkCoord) (t t' : ℚ) :
    (generate_chunk noise cfg coord t).coord = (generate_chunk noise cfg coord t').coord ∧
    (generate_chunk noise cfg coord t).tiles = (generate_chunk noise cfg coord t').tiles ∧
    (generate_chunk noise cfg coord t).biome_type =
      (generate_chunk noise cfg coord t').biome_type ∧
    (generate_chunk noise cfg coord t).last_accessed = t :=
  ⟨rfl, rfl, rfl, rfl⟩

/-- C1 counterexample: two invocations for the same (seed, coordinate)
run at different world times (world time 0 and 1) yield chunks that are
not bit-identical — they differ in the `last_accessed` field, which
generate_chunk stamps with the current world time. -/
theorem generate_chunk_time_counterexample :
    generate_chunk constNoise tinyConfig ⟨0, 0⟩ 0 ≠
      generate_chunk constNoise tinyConfig ⟨0, 0⟩ 1 := by
  intro h
  have h2 : (0 : ℚ) = 1 := congrArg Chunk.last_accessed h
  exact one_ne_zero h2.symm

/-! ### C4: idempotent receipt of chunk data -/

/-- C4: a ChunkData message for a coordinate that is not visible or is
already loaded is discarded with the state unchanged and nothing
materialized; otherwise the coordinate is inserted into loaded, removed
from requested, and materialized exactly once — reprocessing the same
coordinate is always a no-op that materializes nothing. -/
theorem on_receive_spec (s : ClientWorldState) (ch : Chunk) :
    ((ch.coord ∉ s.visible_chunks ∨ ch.coord ∈ s.loaded_chunks) →
      on_receive s ch = (s, false)) ∧
    (ch.coord ∈ s.visible_chunks → ch.coord ∉ s.loaded_chunks →
      on_receive s ch =
        ({ s with loaded_chunks := insert ch.coord s.loaded_chunks,
                  requested_chunks := eraseA s.requested_chunks ch.coord }, true)) ∧
    on_receive (on_receive s ch).1 ch = ((on_receive s ch).1, false) := by
  refine ⟨?_, ?_, ?_⟩
  · intro h
    rcases h with h | h
    · simp [on_receive, h]
    · by_cases hv : ch.coord ∈ s.visible_chunks <;> simp [on_receive, h, hv]
  · intro hv hl
    simp [on_receive, hv, hl]
  · by_cases hv : ch.coord ∈ s.visible_chunks
    · by_cases hl : ch.coord ∈ s.loaded_chunks
      · simp [on_receive, hv, hl]
      · simp [on_receive, hv, hl]
    · simp [on_receive, hv]

/-- Witness for C4: receiving a chunk in the initial (empty-visibility)
state discards it. -/
theorem on_receive_spec_witness :
    on_receive initClientState originChunk = (initClientState, false) :=
  (on_receive_spec initClientState originChunk).1 (Or.inl (by decide))

/-! ### C7: the visible window -/

/-- C7: for view distance `v ≥ 0` the recomputed visible set is exactly
the set of coordinates within Chebyshev distance `v` of the player
chunk, of size `(2v+1)²` (25 for `v = 2`); update_visible_chunks
installs exactly this window whenever the player chunk changed. -/
theorem visible_window_spec (pc : ChunkCoord) (v : ℤ) (hv : 0 ≤ v) :
    (∀ c : ChunkCoord,
      c ∈ chebyshevWindow pc v ↔ |c.x - pc.x| ≤ v ∧ |c.y - pc.y| ≤ v) ∧
    (chebyshevWindow pc v).card = ((2 * v + 1) * (2 * v + 1)).toNat ∧
    (v = 2 → (chebyshevWindow pc v).card = 25) ∧
    (∀ (cfg : WorldConfig) (s : ClientWorldState) (p : ℤ × ℤ),
      s.view_distance = v →
      s.player_chunk ≠
        some ⟨Int.ediv p.1 (cfg.chunk_size : ℤ), Int.ediv p.2 (cfg.chunk_size : ℤ)⟩ →
      (update_visible_chunks (some p) cfg s).visible_chunks =
        chebyshevWindow
          ⟨Int.ediv p.1 (cfg.chunk_size : ℤ), Int.ediv p.2 (cfg.chunk_size : ℤ)⟩ v) := by
  have hmem : ∀ c : ChunkCoord,
      c ∈ chebyshevWindow pc v ↔ |c.x - pc.x| ≤ v ∧ |c.y - pc.y| ≤ v := by
    rintro ⟨cx, cy⟩
    simp only [chebyshevWindow, Finset.mem_image, Finset.mem_product, Finset.mem_Icc,
      ChunkCoord.mk.injEq, Prod.exists]
    rw [abs_le, abs_le]
    constructor
    · rintro ⟨dx, dy, ⟨⟨h1, h2⟩, h3, h4⟩, h5, h6⟩
      omega
    · rintro ⟨⟨h1, h2⟩, h3, h4⟩
      exact ⟨cx - pc.x, cy - pc.y, ⟨⟨by omega, by omega⟩, by omega, by omega⟩,
        by omega, by omega⟩
  have hinj : Function.Injective
      (fun d : ℤ × ℤ => ChunkCoord.mk (pc.x + d.1) (pc.y + d.2)) := by
    intro a b hab
    simp only [ChunkCoord.mk.injEq] at hab
    have h1 : a.1 = b.1 := by omega
    have h2 : a.2 = b.2 := by omega
    exact Prod.ext h1 h2
  have hcard : (chebyshevWindow pc v).card = ((2 * v + 1) * (2 * v + 1)).toNat := by
    rw [chebyshevWindow, Finset.card_image_of_injective _ hinj, Finset.card_product,
      Int.card_Icc]
    have h1 : v + 1 - -v = 2 * v + 1 := by ring
    rw [h1]
    obtain ⟨n, hn⟩ : ∃ n : ℕ, (2 * v + 1 : ℤ) = (n : ℤ) :=
      ⟨(2 * v + 1).toNat, (Int.toNat_of_nonneg (by omega)).symm⟩
    rw [hn, ← Nat.cast_mul, Int.toNat_natCast, Int.toNat_natCast]
  refine ⟨hmem, hcard, ?_, ?_⟩
  · intro hv2
    rw [hcard, hv2]
    rfl
  · intro cfg s p hvd hne
    simp only [update_visible_chunks]
    rw [if_pos hne]
    rw [hvd]

/-- Witness for C7 at the origin with view distance 2. -/
theorem visible_window_spec_witness :
    (chebyshevWindow ⟨0, 0⟩ 2).card = 25 :=
  (visible_window_spec ⟨0, 0⟩ 2 (by decide)).2.2.1 rfl

/-! ### C3: reconciliation -/

/-- C3 (amended): after one reconciliation pass the loaded set and the
requested keys are subsets of the visible set, and every coordinate
dropped from loaded is exactly a coordinate released (despawned); the
pass does not establish `requested ∩ loaded = ∅` on its own but does
preserve it when it already held. -/
theorem cleanup_spec (s : ClientWorldState) :
    (∀ c ∈ (cleanup_invisible_chunks s).1.loaded_chunks,
      c ∈ (cleanup_invisible_chunks s).1.visible_chunks) ∧
    (∀ c ∈ keysA (cleanup_invisible_chunks s).1.requested_chunks,
      c ∈ (cleanup_invisible_chunks s).1.visible_chunks) ∧
    (cleanup_invisible_chunks s).2 =
      s.loaded_chunks.filter (fun c => c ∉ s.visible_chunks) ∧
    ((∀ c ∈ keysA s.requested_chunks, c ∉ s.loaded_chunks) →
      ∀ c ∈ keysA (cleanup_invisible_chunks s).1.requested_chunks,
        c ∉ (cleanup_invisible_chunks s).1.loaded_chunks) := by
  refine ⟨?_, ?_, rfl, ?_⟩
  · intro c hc
    simp only [cleanup_invisible_chunks, Finset.mem_filter] at hc ⊢
    exact hc.2
  · intro c hc
    simp only [cleanup_invisible_chunks, keysA, List.mem_map, List.mem_filter] at hc
    obtain ⟨p, ⟨_, hp⟩, rfl⟩ := hc
    simpa [cleanup_invisible_chunks] using of_decide_eq_true hp
  · intro hdisj c hc
    simp only [cleanup_invisible_chunks, keysA, List.mem_map, List.mem_filter] at hc
    obtain ⟨p, ⟨hpmem, _⟩, rfl⟩ := hc
    have hnl : p.1 ∉ s.loaded_chunks :=
      hdisj p.1 (List.mem_map.mpr ⟨p, hpmem, rfl⟩)
    simp only [cleanup_invisible_chunks, Finset.mem_filter]
    intro hcontra
    exact hnl hcontra.1

/-- Witness for C3 applied to the initial client state, discharging the
disjointness precondition of the preservation conjunct. -/
theorem cleanup_spec_witness :
    ∀ c ∈ keysA (cleanup_invisible_chunks initClientState).1.requested_chunks,
      c ∉ (cleanup_invisible_chunks initClientState).1.loaded_chunks :=
  (cleanup_spec initClientState).2.2.2 (by decide)

/-- C3 counterexample: in a state where a coordinate is visible, loaded
and requested at once, the reconciliation pass leaves it in both the
requested map and the loaded set, so `requested ∩ loaded = ∅` does not
hold after the pass for arbitrary input states. -/
theorem cleanup_counterexample :
    ¬ (∀ c ∈ keysA (cleanup_invisible_chunks bothState).1.requested_chunks,
        c ∉ (cleanup_invisible_chunks bothState).1.loaded_chunks) := by
  decide

/-! ### C5: the request pass -/

theorem lookupA_foldl_insertA (l : List ChunkCoord) (m : List (ChunkCoord × ℕ)) (v : ℕ)
    (c : ChunkCoord) :
    lookupA (l.foldl (fun m c => insertA m c v) m) c =
      if c ∈ l then some v else lookupA m c := by
  induction l generalizing m with
  | nil => simp
  | cons a t ih =>
    rw [List.foldl_cons, ih]
    by_cases hc : c ∈ t
    · simp [hc]
    · by_cases hca : c = a
      · subst hca
        simp [hc, lookupA_insertA_self]
      · simp [hc, hca, lookupA_insertA_ne _ _ _ _ hca]

theorem wantsRequest_iff (s : ClientWorldState) (cf : ℕ) (c : ChunkCoord) :
    wantsRequest s cf c = true ↔
      c ∉ s.loaded_chunks ∧
        (lookupA s.requested_chunks c = none ∨
          ∃ f, lookupA s.requested_chunks c = some f ∧
            u32Sub cf f > REQUEST_TIMEOUT) := by
  unfold wantsRequest
  by_cases hl : c ∈ s.loaded_chunks
  · simp [hl]
  · cases hreq : lookupA s.requested_chunks c with
    | none => simp [hl, hreq]
    | some f => simp [hl, hreq]

/-- C5: in a request pass (timeout 120), each visible coordinate is
skipped when loaded; it is emitted and stamped with the current frame
when unrequested or when the recorded request is older than the
timeout; and nothing is re-emitted while the window has not elapsed —
pending entries within the window keep their recorded frame. -/
theorem request_pass_spec (s : ClientWorldState) (pc : ChunkCoord)
    (hp : s.player_chunk = some pc) :
    (∀ c, c ∈ (request_visible_chunks s).2 ↔
      c ∈ s.visible_chunks ∧ c ∉ s.loaded_chunks ∧
        (lookupA s.requested_chunks c = none ∨
          ∃ f, lookupA s.requested_chunks c = some f ∧
            u32Sub s.frame_counter f > REQUEST_TIMEOUT)) ∧
    (∀ c ∈ (request_visible_chunks s).2,
      lookupA (request_visible_chunks s).1.requested_chunks c =
        some s.frame_counter) ∧
    (∀ c, c ∉ (request_visible_chunks s).2 →
      lookupA (request_visible_chunks s).1.requested_chunks c =
        lookupA s.requested_chunks c) ∧
    (∀ c f, lookupA s.requested_chunks c = some f →
      u32Sub s.frame_counter f ≤ REQUEST_TIMEOUT →
      c ∉ (request_visible_chunks s).2) := by
  have h2 : (request_visible_chunks s).2 =
      s.visible_chunks.filter (fun c => wantsRequest s s.frame_counter c = true) := by
    unfold request_visible_chunks
    rw [hp]
  have h1 : (request_visible_chunks s).1.requested_chunks =
      (setToList (s.visible_chunks.filter
          (fun c => wantsRequest s s.frame_counter c = true))).foldl
        (fun m c => insertA m c s.frame_counter) s.requested_chunks := by
    unfold request_visible_chunks
    rw [hp]
  have hmem2 : ∀ c, c ∈ (request_visible_chunks s).2 ↔
      c ∈ s.visible_chunks ∧ c ∉ s.loaded_chunks ∧
        (lookupA s.requested_chunks c = none ∨
          ∃ f, lookupA s.requested_chunks c = some f ∧
            u32Sub s.frame_counter f > REQUEST_TIMEOUT) := by
    intro c
    rw [h2]
    simp only [Finset.mem_filter]
    rw [wantsRequest_iff]
  have hlook : ∀ c, lookupA (request_visible_chunks s).1.requested_chunks c =
      if c ∈ (request_visible_chunks s).2 then some s.frame_counter
      else lookupA s.requested_chunks c := by
    intro c
    rw [h1, lookupA_foldl_insertA, h2]
    by_cases hc : c ∈ s.visible_chunks.filter
        (fun c => wantsRequest s s.frame_counter c = true)
    · rw [if_pos (mem_setToList.mpr hc), if_pos hc]
    · rw [if_neg (fun hmem => hc (mem_setToList.mp hmem)), if_neg hc]
  refine ⟨hmem2, ?_, ?_, ?_⟩
  · intro c hc
    rw [hlook c, if_pos hc]
  · intro c hc
    rw [hlook c, if_neg hc]
  · intro c f hf hle
    rw [hmem2 c]
    rintro ⟨_, _, hcase⟩
    rcases hcase with hnone | ⟨f2, hf2, hgt⟩
    · rw [hf] at hnone
      exact Option.noConfusion hnone
    · rw [hf] at hf2
      have : f = f2 := Option.some.inj hf2
      subst this
      exact absurd hgt (not_lt.mpr hle)

/-- Witness for C5: in a state with one visible coordinate whose
request is 200 frames old (timeout 120), the pass re-emits it. -/
theorem request_pass_spec_witness :
    (⟨0, 0⟩ : ChunkCoord) ∈ (request_visible_chunks staleState).2 :=
  ((request_pass_spec staleState ⟨0, 0⟩ rfl).1 ⟨0, 0⟩).mpr
    ⟨by decide, by decide, Or.inr ⟨0, by decide, by decide⟩⟩

/-! ### C9: serialization round-trip -/

theorem decInt_encInt (i : ℤ) : decInt (encInt i) = i := by
  unfold encInt decInt
  split_ifs <;> omega

theorem tileTypeOfTag_tag (t : TileType) : tileTypeOfTag (tileTypeTag t) = some t := by
  cases t <;> rfl

theorem resourceTypeOfTag_tag (r : ResourceType) :
    resourceTypeOfTag (resourceTypeTag r) = some r := by
  cases r <;> rfl

theorem biomeTypeOfTag_tag (b : BiomeType) : biomeTypeOfTag (biomeTypeTag b) = some b := by
  cases b <;> rfl

theorem decBool_encBool (v : Bool) : decBool (encBool v) = some v := by
  cases v <;> rfl

theorem decTile_encTile (t : Tile) (rest : List ℕ) :
    decTile (encTile t ++ rest) = some (t, rest) := by
  obtain ⟨a, b, h, p, v⟩ := t
  simp only [encTile, List.cons_append, List.nil_append, decTile,
    tileTypeOfTag_tag, resourceTypeOfTag_tag, decBool_encBool,
    decInt_encInt, Rat.mkRat_self, Prod.mk.eta]

theorem decTileSeq_encTileSeq (ts : List Tile) (rest : List ℕ) :
    decTileSeq ts.length (encTileSeq ts ++ rest) = some (ts, rest) := by
  induction ts with
  | nil => simp [encTileSeq, decTileSeq]
  | cons t ts ih =>
    simp only [encTileSeq, List.length_cons, List.append_assoc, decTileSeq,
      decTile_encTile, ih]

theorem decRowSeq_encRowSeq (rows : List (List Tile)) (rest : List ℕ) :
    decRowSeq rows.length (encRowSeq rows ++ rest) = some (rows, rest) := by
  induction rows with
  | nil => simp [encRowSeq, decRowSeq]
  | cons r rs ih =>
    simp only [encRowSeq, encRow, List.length_cons, List.cons_append,
      List.append_eq, List.append_assoc, decRowSeq, decTileSeq_encTileSeq, ih]

/-- C9: serializing a chunk and deserializing the resulting stream
returns exactly the original chunk. -/
theorem serialize_chunk_roundtrip (c : Chunk) (_hne : serialize_chunk c ≠ []) :
    deserialize_chunk (serialize_chunk c) = some c := by
  obtain ⟨⟨cx, cy⟩, tiles, b, la⟩ := c
  simp only [serialize_chunk, List.cons_append, List.nil_append, deserialize_chunk]
  rw [decRowSeq_encRowSeq]
  simp only [biomeTypeOfTag_tag, decInt_encInt, Rat.mkRat_self]

/-- Witness for C9 at a concrete chunk. -/
theorem serialize_chunk_roundtrip_witness :
    deserialize_chunk (serialize_chunk originChunk) = some originChunk :=
  serialize_chunk_roundtrip originChunk (by decide)

/-! ### C6: proactive push -/

/-- C6: evaluation of send_new_chunks at a failing input — a newly
generated chunk at (100,100) is sent to a tracked player at the origin
even though that player's visible set (view distance 2) does not contain
the chunk's coordinate, because the send loop iterates over every
tracked player with no visibility check (contradicting the claim and
the code's own comment "Find players who should receive this chunk
(those close enough)"). -/
theorem send_new_chunks_broadcasts_to_invisible :
    (1, farChunk) ∈ send_new_chunks [farChunk] [originPlayer] ∧
    farChunk.coord ∉ playerVisibleSet defaultConfig 2 originPlayer := by
  constructor
  · decide
  · decide

/-! ### C2: capacity eviction -/

theorem mem_filterMap_lookup (l : List ChunkCoord) (g : List (ChunkCoord × ℚ))
    (p : ChunkCoord × ℚ) :
    p ∈ l.filterMap (fun c => (lookupA g c).map (fun t => (c, t))) ↔
      p.1 ∈ l ∧ lookupA g p.1 = some p.2 := by
  rw [List.mem_filterMap]
  constructor
  · rintro ⟨a, ha, hmap⟩
    rw [Option.map_eq_some'] at hmap
    obtain ⟨t, hlook, heq⟩ := hmap
    cases heq
    exact ⟨ha, hlook⟩
  · rintro ⟨h1, h2⟩
    refine ⟨p.1, h1, ?_⟩
    rw [h2, Option.map_some']

theorem map_fst_filterMap_lookup (l : List ChunkCoord) (g : List (ChunkCoord × ℚ))
    (h : ∀ c ∈ l, (lookupA g c).isSome = true) :
    (l.filterMap (fun c => (lookupA g c).map (fun t => (c, t)))).map Prod.fst = l := by
  induction l with
  | nil => rfl
  | cons a t ih =>
    obtain ⟨ta, hta⟩ := Option.isSome_iff_exists.mp (h a (List.mem_cons_self a t))
    rw [List.filterMap_cons, hta, Option.map_some', List.map_cons,
      ih (fun c hc => h c (List.mem_cons_of_mem a hc))]

theorem length_filter_not_mem (l rm : List ChunkCoord) (hl : l.Nodup) (hrm : rm.Nodup)
    (hsub : ∀ c ∈ rm, c ∈ l) :
    (l.filter (fun c => decide (c ∉ rm))).length = l.length - rm.length := by
  have hperm : (l.filter (fun c => decide (c ∈ rm))).Perm rm := by
    rw [List.perm_ext_iff_of_nodup (hl.filter _) hrm]
    intro a
    simp only [List.mem_filter, decide_eq_true_eq]
    exact ⟨fun ha => ha.2, fun ha => ⟨hsub a ha, ha⟩⟩
  have hlen : (l.filter (fun c => decide (c ∈ rm))).length = rm.length := hperm.length_eq
  have hsum := List.length_eq_countP_add_countP (fun c => decide (c ∈ rm)) l
  rw [List.countP_eq_length_filter, List.countP_eq_length_filter] at hsum
  have hcong : l.filter (fun a => decide (¬(decide (a ∈ rm)) = true)) =
      l.filter (fun c => decide (c ∉ rm)) := by
    apply List.filter_congr
    intro x _
    simp
  rw [hlen, hcong] at hsum
  omega

theorem foldl_evictOne_spec (R : List (ChunkCoord × ℚ)) (st : WorldState)
    (hnd : (R.map Prod.fst).Nodup)
    (hin : ∀ p ∈ R, p.1 ∈ st.chunks) :
    ((R.foldl evictOne st).world_time = st.world_time) ∧
    (∀ c, c ∈ (R.foldl evictOne st).chunks ↔ c ∈ st.chunks ∧ c ∉ R.map Prod.fst) ∧
    ((R.foldl evictOne st).active_chunks =
      st.active_chunks.filter (fun c => decide (c ∉ R.map Prod.fst))) ∧
    (∀ c, lookupA (R.foldl evictOne st).generation_time c =
      if c ∈ R.map Prod.fst then none else lookupA st.generation_time c) := by
  induction R generalizing st with
  | nil =>
    refine ⟨rfl, fun c => by simp, ?_, fun c => by simp⟩
    have h1 : (fun c : ChunkCoord => decide (c ∉ ([] : List (ChunkCoord × ℚ)).map Prod.fst)) =
        fun _ => true := by
      funext c
      simp
    rw [h1]
    simp [List.foldl_nil]
  | cons r R ih =>
    have hr : r.1 ∈ st.chunks := hin r (List.mem_cons_self r R)
    have hstep : evictOne st r =
        { st with
            chunks := st.chunks.erase r.1,
            active_chunks := st.active_chunks.filter (fun c => decide (c ≠ r.1)),
            generation_time := eraseA st.generation_time r.1 } := by
      unfold evictOne
      rw [if_pos hr]
    have hnd' : (R.map Prod.fst).Nodup := (List.nodup_cons.mp (by simpa using hnd)).2
    have hhead : r.1 ∉ R.map Prod.fst := (List.nodup_cons.mp (by simpa using hnd)).1
    have hin' : ∀ p ∈ R, p.1 ∈ (evictOne st r).chunks := by
      intro p hp
      rw [hstep]
      simp only [Finset.mem_erase]
      refine ⟨?_, hin p (List.mem_cons_of_mem r hp)⟩
      intro hcontra
      exact hhead (hcontra ▸ List.mem_map.mpr ⟨p, hp, rfl⟩)
    obtain ⟨ihw, ihc, iha, ihg⟩ := ih (evictOne st r) hnd' hin'
    rw [List.foldl_cons] at *
    refine ⟨?_, ?_, ?_, ?_⟩
    · rw [ihw, hstep]
    · intro c
      rw [ihc c, hstep]
      simp only [Finset.mem_erase, List.map_cons, List.mem_cons]
      constructor
      · rintro ⟨⟨hne, hmem⟩, hnotin⟩
        exact ⟨hmem, by tauto⟩
      · rintro ⟨hmem, hnotin⟩
        exact ⟨⟨fun h => hnotin (Or.inl h), hmem⟩, fun h => hnotin (Or.inr h)⟩
    · rw [iha, hstep]
      simp only [List.map_cons]
      rw [List.filter_filter]
      apply List.filter_congr
      intro c _
      simp only [List.mem_cons, not_or, decide_not]
      rw [Bool.decide_and]
      rw [Bool.and_comm]
      simp [decide_not]
    · intro c
      rw [ihg c, hstep]
      simp only [List.map_cons, List.mem_cons]
      by_cases h1 : c ∈ R.map Prod.fst
      · rw [if_pos h1, if_pos (Or.inr h1)]
      · rw [if_neg h1]
        by_cases h2 : c = r.1
        · rw [if_pos (Or.inl h2), h2]
          exact lookupA_eraseA_self _ _
        · rw [if_neg (by tauto)]
          exact lookupA_eraseA_ne _ _ _ h2

/-- C2 (amended): when the active set exceeds capacity by `k` (with
consistent store maps: every active coordinate a key of the chunk map
and of the generation-time map), the eviction pass removes exactly `k`
coordinates — each with generation time at most every survivor's
(oldest first, ties included) — from the chunk map, the active set and
the generation-time map, leaving exactly `max_active_chunks` active
chunks with their entries intact; a store within capacity only
accumulates world time and evicts nothing. Which chunks are removed
among equal generation times follows the active set's iteration order
(see the tie counterexample), so no hypothesis on the times is
needed. -/
theorem manage_active_chunks_spec (dt : ℚ) (cfg : WorldConfig) (s : WorldState) (k : ℕ)
    (hnd : s.active_chunks.Nodup)
    (hchunks : ∀ c ∈ s.active_chunks, c ∈ s.chunks)
    (hgen : ∀ c ∈ s.active_chunks, (lookupA s.generation_time c).isSome = true)
    (hsize : s.active_chunks.length = cfg.max_active_chunks + k)
    (hk : 0 < k) :
    (manage_active_chunks dt cfg s).active_chunks.length = cfg.max_active_chunks ∧
    (manage_active_chunks dt cfg s).world_time = s.world_time + dt ∧
    (∃ removed : List ChunkCoord,
      removed.length = k ∧
      (∀ c ∈ removed, c ∈ s.active_chunks) ∧
      (manage_active_chunks dt cfg s).active_chunks =
        s.active_chunks.filter (fun c => decide (c ∉ removed)) ∧
      (∀ c ∈ removed, c ∉ (manage_active_chunks dt cfg s).chunks ∧
        lookupA (manage_active_chunks dt cfg s).generation_time c = none) ∧
      (∀ c ∈ (manage_active_chunks dt cfg s).active_chunks,
        c ∈ (manage_active_chunks dt cfg s).chunks ∧
        lookupA (manage_active_chunks dt cfg s).generation_time c =
          lookupA s.generation_time c) ∧
      (∀ c ∈ removed, ∀ c' ∈ (manage_active_chunks dt cfg s).active_chunks,
        ∀ t t', lookupA s.generation_time c = some t →
          lookupA s.generation_time c' = some t' → t ≤ t')) ∧
    (∀ s2 : WorldState, s2.active_chunks.length ≤ cfg.max_active_chunks →
      manage_active_chunks dt cfg s2 = { s2 with world_time := s2.world_time + dt }) := by
  have hover : s.active_chunks.length > cfg.max_active_chunks := by omega
  have hno_evict : ∀ s2 : WorldState, s2.active_chunks.length ≤ cfg.max_active_chunks →
      manage_active_chunks dt cfg s2 = { s2 with world_time := s2.world_time + dt } := by
    intro s2 h2
    simp only [manage_active_chunks]
    rw [if_neg (not_lt.mpr h2)]
  -- abbreviations for the eviction branch
  have hm : manage_active_chunks dt cfg s =
      (((s.active_chunks.filterMap
          (fun c => (lookupA s.generation_time c).map (fun t => (c, t)))).mergeSort
          (fun a b => decide (a.2 ≤ b.2))).take
        (s.active_chunks.length - cfg.max_active_chunks)).foldl evictOne
        { s with world_time := s.world_time + dt } := by
    simp only [manage_active_chunks]
    rw [if_pos hover]
  obtain ⟨cwt, hcwt⟩ : ∃ cwt, cwt = s.active_chunks.filterMap
      (fun c => (lookupA s.generation_time c).map (fun t => (c, t))) := ⟨_, rfl⟩
  obtain ⟨sorted, hsorted⟩ : ∃ srt,
      srt = cwt.mergeSort (fun a b => decide (a.2 ≤ b.2)) := ⟨_, rfl⟩
  rw [← hcwt, ← hsorted] at hm
  have hperm : sorted.Perm cwt := hsorted ▸ List.mergeSort_perm cwt _
  have hpair : List.Pairwise (fun a b : ChunkCoord × ℚ => decide (a.2 ≤ b.2) = true) sorted := by
    rw [hsorted]
    exact List.sorted_mergeSort
      (fun a b c hab hbc => by
        rw [decide_eq_true_eq] at *
        exact le_trans hab hbc)
      (fun a b => by
        rcases le_total a.2 b.2 with h | h
        · simp [h]
        · simp [h])
      cwt
  have hmemcwt : ∀ p : ChunkCoord × ℚ, p ∈ cwt ↔
      p.1 ∈ s.active_chunks ∧ lookupA s.generation_time p.1 = some p.2 := by
    intro p
    rw [hcwt]
    exact mem_filterMap_lookup _ _ p
  have hfst : cwt.map Prod.fst = s.active_chunks := by
    rw [hcwt]
    exact map_fst_filterMap_lookup _ _ hgen
  have hfst_sorted_nodup : (sorted.map Prod.fst).Nodup :=
    ((hperm.map Prod.fst).nodup_iff).mpr (hfst ▸ hnd)
  have hlen_sorted : sorted.length = cfg.max_active_chunks + k := by
    have h1 : sorted.length = cwt.length := hperm.length_eq
    have h2 : (cwt.map Prod.fst).length = s.active_chunks.length := by rw [hfst]
    rw [List.length_map] at h2
    omega
  -- the prefix of evicted pairs
  obtain ⟨R, hR⟩ : ∃ R, R = sorted.take (s.active_chunks.length - cfg.max_active_chunks) :=
    ⟨_, rfl⟩
  rw [← hR] at hm
  have hRlen : R.length = k := by
    rw [hR, List.length_take]
    omega
  have hRsub : R.Sublist sorted := hR ▸ List.take_sublist _ _
  have hRnodup : (R.map Prod.fst).Nodup :=
    ((hRsub.map Prod.fst).nodup hfst_sorted_nodup)
  have hmemR : ∀ p ∈ R, p ∈ cwt := fun p hp => hperm.mem_iff.mp (hRsub.mem hp)
  have hin : ∀ p ∈ R, p.1 ∈ ({ s with world_time := s.world_time + dt } : WorldState).chunks := by
    intro p hp
    exact hchunks p.1 ((hmemcwt p).mp (hmemR p hp)).1
  obtain ⟨hw, hc, ha, hg⟩ := foldl_evictOne_spec R
    { s with world_time := s.world_time + dt } hRnodup hin
  rw [← hm] at hw hc ha hg
  -- survivors: the drop part of the sorted list
  have hsplit : R ++ sorted.drop (s.active_chunks.length - cfg.max_active_chunks) = sorted := by
    rw [hR]
    exact List.take_append_drop _ _
  have hRfst_len : (R.map Prod.fst).length = k := by
    rw [List.length_map]
    exact hRlen
  have hRfst_sub : ∀ c ∈ R.map Prod.fst, c ∈ s.active_chunks := by
    intro c hcmem
    obtain ⟨p, hp, rfl⟩ := List.mem_map.mp hcmem
    exact ((hmemcwt p).mp (hmemR p hp)).1
  have hlen_active : (manage_active_chunks dt cfg s).active_chunks.length =
      cfg.max_active_chunks := by
    rw [ha, length_filter_not_mem s.active_chunks (R.map Prod.fst) hnd hRnodup hRfst_sub]
    omega
  refine ⟨hlen_active, hw, ⟨R.map Prod.fst, hRfst_len, hRfst_sub, ha, ?_, ?_, ?_⟩, hno_evict⟩
  · intro c hcmem
    refine ⟨fun hcontra => ?_, ?_⟩
    · exact (((hc c).mp hcontra).2) hcmem
    · rw [hg c, if_pos hcmem]
  · intro c hcmem
    have hcmem2 : c ∈ s.active_chunks ∧ c ∉ R.map Prod.fst := by
      rw [ha] at hcmem
      have := List.mem_filter.mp hcmem
      exact ⟨this.1, of_decide_eq_true this.2⟩
    refine ⟨?_, ?_⟩
    · exact (hc c).mpr ⟨hchunks c hcmem2.1, hcmem2.2⟩
    · rw [hg c, if_neg hcmem2.2]
  · intro c hcmem c' hcmem' t t' ht ht'
    -- c is the first component of a pair in the take-prefix
    obtain ⟨p, hpR, rfl⟩ := List.mem_map.mp hcmem
    have hpcwt := hmemR p hpR
    have hpt : p.2 = t := by
      have := ((hmemcwt p).mp hpcwt).2
      rw [this] at ht
      exact Option.some.inj ht
    -- c' is a survivor: the pair (c', t') sits in the drop-suffix
    have hcmem2 : c' ∈ s.active_chunks ∧ c' ∉ R.map Prod.fst := by
      rw [ha] at hcmem'
      have := List.mem_filter.mp hcmem'
      exact ⟨this.1, of_decide_eq_true this.2⟩
    have hq : (c', t') ∈ cwt := (hmemcwt (c', t')).mpr ⟨hcmem2.1, ht'⟩
    have hq2 : (c', t') ∈ sorted := hperm.mem_iff.mpr hq
    have hq3 : (c', t') ∈ sorted.drop (s.active_chunks.length - cfg.max_active_chunks) := by
      rcases (List.mem_append.mp (hsplit ▸ hq2)) with hA | hB
      · exact absurd (List.mem_map.mpr ⟨(c', t'), hA, rfl⟩) hcmem2.2
      · exact hB
    have hle : p.2 ≤ t' := by
      have hpairs := (List.pairwise_append.mp (hsplit ▸ hpair)).2.2
      have := hpairs p hpR (c', t') hq3
      rw [decide_eq_true_eq] at this
      exact this
    rw [hpt] at hle
    exact hle

/-- Witness for C2: a store with two active chunks and capacity one is
evicted down to exactly one active chunk. -/
theorem manage_active_chunks_spec_witness :
    (manage_active_chunks 0 evictConfig evictStore).active_chunks.length =
      evictConfig.max_active_chunks :=
  (manage_active_chunks_spec 0 evictConfig evictStore 1
    (by decide) (by decide) (by decide) (by decide) (by decide)).1

/-- C2 counterexample: with tied generation times the evicted chunk is
not determined by the store state. `tieStore1` and `tieStore2` agree as
abstract stores — same chunk-map keys, same active-set membership, same
generation-time lookups, same world time — and differ only in the
iteration order of the active `HashSet`; the eviction pass removes
chunk (0,0) from the first and keeps it in the second, so the pass does
not remove a deterministically tie-broken set of oldest chunks. -/
theorem manage_tie_counterexample :
    (tieStore1.chunks = tieStore2.chunks ∧
      (∀ c, c ∈ tieStore1.active_chunks ↔ c ∈ tieStore2.active_chunks) ∧
      (∀ c, lookupA tieStore1.generation_time c =
        lookupA tieStore2.generation_time c) ∧
      tieStore1.world_time = tieStore2.world_time) ∧
    (⟨0, 0⟩ : ChunkCoord) ∉ (manage_active_chunks 0 evictConfig tieStore1).active_chunks ∧
    (⟨0, 0⟩ : ChunkCoord) ∈ (manage_active_chunks 0 evictConfig tieStore2).active_chunks := by
  have hstate : tieStore1.chunks = tieStore2.chunks ∧
      (∀ c, c ∈ tieStore1.active_chunks ↔ c ∈ tieStore2.active_chunks) ∧
      (∀ c, lookupA tieStore1.generation_time c =
        lookupA tieStore2.generation_time c) ∧
      tieStore1.world_time = tieStore2.world_time := by
    refine ⟨by decide, ?_, ?_, rfl⟩
    · intro c
      show c ∈ [(⟨0, 0⟩ : ChunkCoord), ⟨1, 0⟩] ↔ c ∈ [(⟨1, 0⟩ : ChunkCoord), ⟨0, 0⟩]
      simp only [List.mem_cons, List.not_mem_nil, or_false]
      tauto
    · intro c
      by_cases h1 : c = ⟨0, 0⟩
      · subst h1
        decide
      · by_cases h2 : c = ⟨1, 0⟩
        · subst h2
          decide
        · have e1 : lookupA tieStore1.generation_time c = none := by
            show lookupA [((⟨0, 0⟩ : ChunkCoord), (0 : ℚ)), (⟨1, 0⟩, 0)] c = none
            rw [lookupA_cons_ne _ (fun h => h1 h.symm),
              lookupA_cons_ne _ (fun h => h2 h.symm)]
            rfl
          have e2 : lookupA tieStore2.generation_time c = none := by
            show lookupA [((⟨1, 0⟩ : ChunkCoord), (0 : ℚ)), (⟨0, 0⟩, 0)] c = none
            rw [lookupA_cons_ne _ (fun h => h2 h.symm),
              lookupA_cons_ne _ (fun h => h1 h.symm)]
            rfl
          rw [e1, e2]
  have hout1 : manage_active_chunks 0 evictConfig tieStore1 =
      evictOne { tieStore1 with world_time := tieStore1.world_time + 0 }
        ((⟨0, 0⟩ : ChunkCoord), (0 : ℚ)) := by
    simp only [manage_active_chunks]
    rw [if_pos (by decide)]
    have hcwt : ({ tieStore1 with
        world_time := tieStore1.world_time + 0 } : WorldState).active_chunks.filterMap
        (fun c => (lookupA ({ tieStore1 with
          world_time := tieStore1.world_time + 0 } : WorldState).generation_time c).map
            (fun t => (c, t))) =
        [((⟨0, 0⟩ : ChunkCoord), (0 : ℚ)), (⟨1, 0⟩, 0)] := by decide
    rw [hcwt, List.mergeSort_of_sorted (by decide)]
    have hlen : ({ tieStore1 with
        world_time := tieStore1.world_time + 0 } : WorldState).active_chunks.length -
        evictConfig.max_active_chunks = 1 := by decide
    rw [hlen]
    rfl
  have hout2 : manage_active_chunks 0 evictConfig tieStore2 =
      evictOne { tieStore2 with world_time := tieStore2.world_time + 0 }
        ((⟨1, 0⟩ : ChunkCoord), (0 : ℚ)) := by
    simp only [manage_active_chunks]
    rw [if_pos (by decide)]
    have hcwt : ({ tieStore2 with
        world_time := tieStore2.world_time + 0 } : WorldState).active_chunks.filterMap
        (fun c => (lookupA ({ tieStore2 with
          world_time := tieStore2.world_time + 0 } : WorldState).generation_time c).map
            (fun t => (c, t))) =
        [((⟨1, 0⟩ : ChunkCoord), (0 : ℚ)), (⟨0, 0⟩, 0)] := by decide
    rw [hcwt, List.mergeSort_of_sorted (by decide)]
    have hlen : ({ tieStore2 with
        world_time := tieStore2.world_time + 0 } : WorldState).active_chunks.length -
        evictConfig.max_active_chunks = 1 := by decide
    rw [hlen]
    rfl
  refine ⟨hstate, ?_, ?_⟩
  · rw [hout1]
    decide
  · rw [hout2]
    decide

/-! ### C10: requested timestamps never exceed the frame counter -/

theorem request_pass_eq (s : ClientWorldState) (pc : ChunkCoord)
    (hp : s.player_chunk = some pc) :
    request_visible_chunks s =
      (ClientWorldState.mk s.visible_chunks s.loaded_chunks
        ((setToList (s.visible_chunks.filter
            (fun c => wantsRequest s s.frame_counter c = true))).foldl
          (fun m c => insertA m c s.frame_counter) s.requested_chunks)
        s.player_chunk s.view_distance s.frame_counter,
        s.visible_chunks.filter (fun c => wantsRequest s s.frame_counter c = true)) := by
  unfold request_visible_chunks
  rw [hp]

theorem mem_foldl_insertA (l : List ChunkCoord) (m : List (ChunkCoord × ℕ)) (v : ℕ)
    (p : ChunkCoord × ℕ) (h : p ∈ l.foldl (fun m c => insertA m c v) m) :
    p ∈ m ∨ (p.1 ∈ l ∧ p.2 = v) := by
  induction l generalizing m with
  | nil => exact Or.inl h
  | cons a t ih =>
    rw [List.foldl_cons] at h
    rcases ih _ h with h1 | h1
    · rcases mem_insertA h1 with h2 | h2
      · cases h2
        exact Or.inr ⟨List.mem_cons_self a t, rfl⟩
      · exact Or.inl h2
    · exact Or.inr ⟨List.mem_cons_of_mem a h1.1, h1.2⟩

theorem mem_of_lookupA {α : Type} {l : List (ChunkCoord × α)} {c : ChunkCoord} {v : α}
    (h : lookupA l c = some v) : (c, v) ∈ l := by
  unfold lookupA at h
  rw [Option.map_eq_some'] at h
  obtain ⟨p, hfind, hsnd⟩ := h
  have hmem := List.mem_of_find?_eq_some hfind
  have hpred := List.find?_some hfind
  rw [beq_iff_eq] at hpred
  have hp : p = (c, v) := by
    obtain ⟨p1, p2⟩ := p
    simp only at hpred hsnd
    rw [hpred, hsnd]
  rw [← hp]
  exact hmem

theorem update_frame_and_requested (pos : Option (ℤ × ℤ)) (cfg : WorldConfig)
    (s : ClientWorldState) :
    (update_visible_chunks pos cfg s).requested_chunks = s.requested_chunks ∧
    (update_visible_chunks pos cfg s).frame_counter = (s.frame_counter + 1) % u32Size := by
  unfold update_visible_chunks
  cases pos with
  | none => exact ⟨rfl, rfl⟩
  | some p =>
    dsimp only
    split
    · exact ⟨rfl, rfl⟩
    · exact ⟨rfl, rfl⟩

theorem on_receive_frame_and_requested (s : ClientWorldState) (ch : Chunk) :
    (∀ p ∈ (on_receive s ch).1.requested_chunks, p ∈ s.requested_chunks) ∧
    (on_receive s ch).1.frame_counter = s.frame_counter := by
  unfold on_receive
  dsimp only
  split
  · exact ⟨fun p hp => hp, rfl⟩
  · split
    · exact ⟨fun p hp => hp, rfl⟩
    · exact ⟨fun p hp => mem_eraseA hp, rfl⟩

theorem handle_frame_and_requested (msgs : List Chunk) (s : ClientWorldState) :
    (∀ p ∈ (handle_chunk_data msgs s).requested_chunks, p ∈ s.requested_chunks) ∧
    (handle_chunk_data msgs s).frame_counter = s.frame_counter := by
  induction msgs generalizing s with
  | nil => exact ⟨fun p hp => hp, rfl⟩
  | cons m t ih =>
    have hstep := on_receive_frame_and_requested s m
    have hrest := ih (on_receive s m).1
    unfold handle_chunk_data at hrest ⊢
    rw [List.foldl_cons]
    refine ⟨fun p hp => hstep.1 p (hrest.1 p hp), ?_⟩
    rw [hrest.2, hstep.2]

theorem request_frame_and_requested (s : ClientWorldState) :
    (∀ p ∈ (request_visible_chunks s).1.requested_chunks,
      p ∈ s.requested_chunks ∨ p.2 = s.frame_counter) ∧
    (request_visible_chunks s).1.frame_counter = s.frame_counter := by
  cases hp : s.player_chunk with
  | none =>
    unfold request_visible_chunks
    rw [hp]
    exact ⟨fun p hp => Or.inl hp, rfl⟩
  | some pc =>
    rw [request_pass_eq s pc hp]
    refine ⟨fun p hmem => ?_, rfl⟩
    rcases mem_foldl_insertA _ _ _ p hmem with h | h
    · exact Or.inl h
    · exact Or.inr h.2

theorem clientTick_invariant (cfg : WorldConfig) (inp : Option (ℤ × ℤ) × List Chunk)
    (s : ClientWorldState) (n : ℕ) (hn : s.frame_counter = n) (h1 : n + 1 < u32Size)
    (hreq : ∀ p ∈ s.requested_chunks, p.2 ≤ n) :
    (clientTick cfg inp s).frame_counter = n + 1 ∧
    ∀ p ∈ (clientTick cfg inp s).requested_chunks, p.2 ≤ n + 1 := by
  have hup := update_frame_and_requested inp.1 cfg s
  have hhan := handle_frame_and_requested inp.2
    (cleanup_invisible_chunks (update_visible_chunks inp.1 cfg s)).1
  have hreqp := request_frame_and_requested
    (handle_chunk_data inp.2 (cleanup_invisible_chunks (update_visible_chunks inp.1 cfg s)).1)
  have hframe3 :
      (handle_chunk_data inp.2
        (cleanup_invisible_chunks (update_visible_chunks inp.1 cfg s)).1).frame_counter =
        n + 1 := by
    rw [hhan.2]
    show (update_visible_chunks inp.1 cfg s).frame_counter = n + 1
    rw [hup.2, hn, Nat.mod_eq_of_lt h1]
  constructor
  · show (request_visible_chunks _).1.frame_counter = n + 1
    rw [hreqp.2, hframe3]
  · intro p hp
    have hmem := hreqp.1 p hp
    rcases hmem with h | h
    · have h2 := hhan.1 p h
      have h3 : p ∈ (update_visible_chunks inp.1 cfg s).requested_chunks :=
        List.mem_of_mem_filter h2
    -- cleanup keeps only a sublist of the requested entries
      rw [hup.1] at h3
      exact le_trans (hreq p h3) (Nat.le_succ n)
    · rw [h, hframe3]

/-- C10 (amended): in every client state reached by fewer than `2^32`
ticks from the initial state, every timestamp stored in the requested
map is at most the current frame counter, and the wrapping `u32`
subtraction `current - recorded` in the request pass equals the exact
difference (no underflow); once the `u32` frame counter wraps (at
`2^32` ticks) the bound fails (see the counterexample). -/
theorem requested_frames_bounded (cfg : WorldConfig)
    (inputs : List (Option (ℤ × ℤ) × List Chunk)) (hlen : inputs.length < u32Size) :
    (runClient cfg inputs).frame_counter = inputs.length ∧
    (∀ p ∈ (runClient cfg inputs).requested_chunks,
      p.2 ≤ (runClient cfg inputs).frame_counter) ∧
    (∀ p ∈ (runClient cfg inputs).requested_chunks,
      u32Sub (runClient cfg inputs).frame_counter p.2 =
        (runClient cfg inputs).frame_counter - p.2) := by
  have haux : ∀ (l : List (Option (ℤ × ℤ) × List Chunk)) (s : ClientWorldState) (n : ℕ),
      s.frame_counter = n → (∀ p ∈ s.requested_chunks, p.2 ≤ n) →
      n + l.length < u32Size →
      (l.foldl (fun s i => clientTick cfg i s) s).frame_counter = n + l.length ∧
      ∀ p ∈ (l.foldl (fun s i => clientTick cfg i s) s).requested_chunks,
        p.2 ≤ n + l.length := by
    intro l
    induction l with
    | nil =>
      intro s n hn hreq _
      rw [List.foldl_nil, List.length_nil, Nat.add_zero]
      exact ⟨hn, hreq⟩
    | cons i t ih =>
      intro s n hn hreq hlt
      rw [List.length_cons] at hlt
      have hstep := clientTick_invariant cfg i s n hn (by omega) hreq
      have hrest := ih (clientTick cfg i s) (n + 1) hstep.1 hstep.2 (by omega)
      rw [List.foldl_cons]
      rw [List.length_cons]
      have harith : n + 1 + t.length = n + (t.length + 1) := by omega
      rw [← harith]
      exact hrest
  have hmain := haux inputs initClientState 0 rfl (by intro p hp; cases hp) (by omega)
  rw [Nat.zero_add] at hmain
  unfold runClient
  refine ⟨hmain.1, fun p hp => by rw [hmain.1]; exact hmain.2 p hp, fun p hp => ?_⟩
  have hb : p.2 ≤ inputs.length := hmain.2 p hp
  rw [hmain.1]
  unfold u32Sub u32Size
  unfold u32Size at hlen
  omega

/-- Witness for C10 at the empty input trace. -/
theorem requested_frames_bounded_witness :
    (runClient defaultConfig ([] : List (Option (ℤ × ℤ) × List Chunk))).frame_counter = 0 :=
  (requested_frames_bounded defaultConfig [] (by decide)).1

theorem idle_tick_eq (cfg : WorldConfig) (k : ℕ) :
    clientTick cfg idleTick (emptyAt k) = emptyAt ((k + 1) % u32Size) := rfl

theorem idle_run (cfg : WorldConfig) (n k : ℕ) (hk : k < u32Size) :
    (List.replicate n idleTick).foldl (fun s i => clientTick cfg i s) (emptyAt k) =
      emptyAt ((k + n) % u32Size) := by
  induction n generalizing k with
  | zero =>
    rw [List.replicate_zero, List.foldl_nil, Nat.add_zero, Nat.mod_eq_of_lt hk]
  | succ n ih =>
    rw [List.replicate_succ, List.foldl_cons, idle_tick_eq,
      ih ((k + 1) % u32Size) (Nat.mod_lt _ (by unfold u32Size; omega))]
    congr 1
    unfold u32Size
    omega

/-- C10 counterexample: the `u32` frame counter wraps after `2^32`
ticks. On the explicit input trace `wrapInputs` (idle until frame
`2^32 - 2`, then two ticks with the player at the origin) the client
reaches a state whose requested map stores frame `2^32 - 1` for chunk
(0,0) while the frame counter has wrapped to 0, so a stored timestamp
exceeds the current frame counter and `current_frame - frame` wraps. -/
theorem frame_counter_wrap_counterexample :
    (runClient defaultConfig wrapInputs).frame_counter = 0 ∧
    lookupA (runClient defaultConfig wrapInputs).requested_chunks ⟨0, 0⟩ =
      some (u32Size - 1) ∧
    ¬ (∀ p ∈ (runClient defaultConfig wrapInputs).requested_chunks,
        p.2 ≤ (runClient defaultConfig wrapInputs).frame_counter) := by
  obtain ⟨RA, hRA⟩ : ∃ r, r = (setToList (chebyshevWindow ⟨0, 0⟩ 2)).foldl
      (fun m c => insertA m c (u32Size - 1)) [] := ⟨_, rfl⟩
  -- the state after the idle prefix
  have hprefix : (List.replicate (u32Size - 2) idleTick).foldl
      (fun s i => clientTick defaultConfig i s) initClientState =
      emptyAt (u32Size - 2) := by
    have h0 : initClientState = emptyAt 0 := rfl
    have harith : (0 + (u32Size - 2)) % u32Size = u32Size - 2 := by
      unfold u32Size
      omega
    rw [h0, idle_run defaultConfig (u32Size - 2) 0 (by unfold u32Size; omega), harith]
  -- tick A: the visibility window is computed and all of it requested
  -- at frame u32Size - 1
  have hA1 : update_visible_chunks (some (0, 0)) defaultConfig (emptyAt (u32Size - 2)) =
      ClientWorldState.mk (chebyshevWindow ⟨0, 0⟩ 2) ∅ [] (some ⟨0, 0⟩) 2
        (u32Size - 1) := rfl
  have hA2 : (cleanup_invisible_chunks
      (ClientWorldState.mk (chebyshevWindow ⟨0, 0⟩ 2) ∅ [] (some ⟨0, 0⟩) 2
        (u32Size - 1))).1 =
      ClientWorldState.mk (chebyshevWindow ⟨0, 0⟩ 2) ∅ [] (some ⟨0, 0⟩) 2
        (u32Size - 1) := rfl
  have hfiltA : (chebyshevWindow ⟨0, 0⟩ 2).filter
      (fun c => wantsRequest
        (ClientWorldState.mk (chebyshevWindow ⟨0, 0⟩ 2) ∅ [] (some ⟨0, 0⟩) 2
          (u32Size - 1)) (u32Size - 1) c = true) =
      chebyshevWindow ⟨0, 0⟩ 2 := by
    apply Finset.filter_true_of_mem
    intro c _
    rfl
  have hA4 : (request_visible_chunks
      (ClientWorldState.mk (chebyshevWindow ⟨0, 0⟩ 2) ∅ [] (some ⟨0, 0⟩) 2
        (u32Size - 1))).1 =
      ClientWorldState.mk (chebyshevWindow ⟨0, 0⟩ 2) ∅ RA (some ⟨0, 0⟩) 2
        (u32Size - 1) := by
    rw [request_pass_eq _ ⟨0, 0⟩ rfl]
    dsimp only
    rw [hfiltA, ← hRA]
  have htickA : clientTick defaultConfig originTick (emptyAt (u32Size - 2)) =
      ClientWorldState.mk (chebyshevWindow ⟨0, 0⟩ 2) ∅ RA (some ⟨0, 0⟩) 2
        (u32Size - 1) := by
    show (request_visible_chunks (handle_chunk_data []
        (cleanup_invisible_chunks (update_visible_chunks (some (0, 0)) defaultConfig
          (emptyAt (u32Size - 2)))).1)).1 = _
    rw [hA1, hA2]
    exact hA4
  -- tick B: the counter wraps to 0 and nothing is re-requested
  have hB1 : update_visible_chunks (some (0, 0)) defaultConfig
      (ClientWorldState.mk (chebyshevWindow ⟨0, 0⟩ 2) ∅ RA (some ⟨0, 0⟩) 2
        (u32Size - 1)) =
      ClientWorldState.mk (chebyshevWindow ⟨0, 0⟩ 2) ∅ RA (some ⟨0, 0⟩) 2 0 := by
    unfold update_visible_chunks
    dsimp only
    rw [if_neg (by decide)]
    have harith : (u32Size - 1 + 1) % u32Size = 0 := by
      unfold u32Size
      omega
    rw [harith]
  have hkeysRA : ∀ p ∈ RA, p.1 ∈ chebyshevWindow ⟨0, 0⟩ 2 := by
    intro p hp
    rw [hRA] at hp
    rcases mem_foldl_insertA _ _ _ p hp with h | h
    · cases h
    · exact mem_setToList.mp h.1
  have hfB : RA.filter (fun p => decide (p.1 ∈ chebyshevWindow ⟨0, 0⟩ 2)) = RA :=
    List.filter_eq_self.mpr (fun p hp => decide_eq_true (hkeysRA p hp))
  have hB2 : (cleanup_invisible_chunks
      (ClientWorldState.mk (chebyshevWindow ⟨0, 0⟩ 2) ∅ RA (some ⟨0, 0⟩) 2 0)).1 =
      ClientWorldState.mk (chebyshevWindow ⟨0, 0⟩ 2) ∅ RA (some ⟨0, 0⟩) 2 0 := by
    unfold cleanup_invisible_chunks
    dsimp only
    rw [hfB, Finset.filter_empty]
  have hlookRA : ∀ c ∈ chebyshevWindow ⟨0, 0⟩ 2, lookupA RA c = some (u32Size - 1) := by
    intro c hc
    rw [hRA, lookupA_foldl_insertA, if_pos (mem_setToList.mpr hc)]
  have hfiltB : (chebyshevWindow ⟨0, 0⟩ 2).filter
      (fun c => wantsRequest
        (ClientWorldState.mk (chebyshevWindow ⟨0, 0⟩ 2) ∅ RA (some ⟨0, 0⟩) 2 0)
        0 c = true) = ∅ := by
    rw [Finset.filter_eq_empty_iff]
    intro c hc
    have hsub : u32Sub 0 (u32Size - 1) = 1 := by
      unfold u32Sub u32Size
      norm_num
    simp only [wantsRequest, hlookRA c hc, hsub, REQUEST_TIMEOUT]
    simp
  have hB4 : (request_visible_chunks
      (ClientWorldState.mk (chebyshevWindow ⟨0, 0⟩ 2) ∅ RA (some ⟨0, 0⟩) 2 0)).1 =
      ClientWorldState.mk (chebyshevWindow ⟨0, 0⟩ 2) ∅ RA (some ⟨0, 0⟩) 2 0 := by
    rw [request_pass_eq _ ⟨0, 0⟩ rfl]
    dsimp only
    rw [hfiltB]
    have hempty : setToList (∅ : Finset ChunkCoord) = [] := by
      unfold setToList
      exact Finset.sort_empty _
    rw [hempty, List.foldl_nil]
  have htickB : clientTick defaultConfig originTick
      (ClientWorldState.mk (chebyshevWindow ⟨0, 0⟩ 2) ∅ RA (some ⟨0, 0⟩) 2
        (u32Size - 1)) =
      ClientWorldState.mk (chebyshevWindow ⟨0, 0⟩ 2) ∅ RA (some ⟨0, 0⟩) 2 0 := by
    show (request_visible_chunks (handle_chunk_data []
        (cleanup_invisible_chunks (update_visible_chunks (some (0, 0)) defaultConfig
          (ClientWorldState.mk (chebyshevWindow ⟨0, 0⟩ 2) ∅ RA (some ⟨0, 0⟩) 2
            (u32Size - 1)))).1)).1 = _
    rw [hB1, hB2]
    exact hB4
  -- assemble the run
  have hrun : runClient defaultConfig wrapInputs =
      ClientWorldState.mk (chebyshevWindow ⟨0, 0⟩ 2) ∅ RA (some ⟨0, 0⟩) 2 0 := by
    unfold runClient wrapInputs
    rw [List.foldl_append, hprefix, List.foldl_cons, List.foldl_cons, List.foldl_nil,
      htickA, htickB]
  have h00 : (⟨0, 0⟩ : ChunkCoord) ∈ chebyshevWindow ⟨0, 0⟩ 2 := by decide
  have hlook : lookupA (runClient defaultConfig wrapInputs).requested_chunks ⟨0, 0⟩ =
      some (u32Size - 1) := by
    rw [hrun]
    exact hlookRA ⟨0, 0⟩ h00
  refine ⟨by rw [hrun], hlook, ?_⟩
  intro hall
  have hmem : ((⟨0, 0⟩ : ChunkCoord), u32Size - 1) ∈
      (runClient defaultConfig wrapInputs).requested_chunks :=
    mem_of_lookupA hlook
  have hle := hall _ hmem
  rw [hrun] at hle
  dsimp only at hle
  unfold u32Size at hle
  omega

end DreamGame
